import Mathlib

/-!
Verification development for the pscic expression engine
(`psciclib`): shallow embedding of the tokenizer/grammar
(`parseexpr.py`), the operator tree and its evaluation
(`operators/__init__.py`), the quantity/unit bridge (`unitbridge.py`)
and the result formatter (`result.py`), together with theorems about
the behaviour that the specification describes.

External collaborators (the sympy "Numeric Engine" and the pint "Unit
System") are modelled at their narrow interfaces: numbers are exact
rationals tagged with their sympy kind (Integer/Rational vs Float),
units are finite products of named base units with rational exponents
and a table of exact SI conversion factors.
-/

namespace Pscic

/-! ## Tokens and tokenizer (parseexpr.py, lexical layer)

Tokens for the fragment of the grammar exercised here: decimal
integer and float literals, identifiers (the keyword `to` is lexed
separately, mirroring `NotAny(keyword)` in `parseexpr.py`), the sign /
multiplicative / exponent / factorial operator symbols and
parentheses.  The base-prefixed literal forms, matrix brackets and
function-call commas are not needed by the parsed inputs below and are
omitted from the token alphabet. -/

inductive Tok where
  | num (n : ℕ)          -- integer literal (`process_int` makes a sympy.Integer)
  | fnum (q : ℚ)         -- float literal (`process_float` makes a sympy.Float)
  | ident (s : String)   -- identifier (variable / constant / unit)
  | kwTo                 -- reserved keyword `to`
  | plus | minus         -- sign / additive operators (incl. unicode minus)
  | star | slash | dslash  -- `*`/`·`, `/`/`÷`, `//`
  | caret | dstar        -- `^`, `**` (both are `expop`)
  | bang                 -- `!`
  | lparen | rparen
  deriving DecidableEq, Repr

def charVal (c : Char) : ℕ := c.toNat - '0'.toNat

/-- Span of leading characters satisfying `p`. -/
def span (p : Char → Bool) : List Char → List Char × List Char
  | [] => ([], [])
  | c :: cs =>
    if p c then
      let r := span p cs
      (c :: r.1, r.2)
    else ([], c :: cs)

def natOfDigits (l : List Char) : ℕ :=
  l.foldl (fun acc c => 10 * acc + charVal c) 0

/-- Value of the fractional digit string `ds` (digits after the `.`). -/
def fracOfDigits (l : List Char) : ℚ :=
  (natOfDigits l : ℚ) / (10 : ℚ) ^ l.length

def isLetter (c : Char) : Bool := c.isAlpha

/-- Tokenizer with explicit fuel (each step consumes at least one
character, so `length + 1` fuel always suffices). -/
def tokenizeFuel : ℕ → List Char → Option (List Tok)
  | 0, _ => none
  | _, [] => some []
  | fuel + 1, c :: cs =>
    if c = ' ' then tokenizeFuel fuel cs
    else if c.isDigit then
      -- integer part; optional `.` + fractional digits makes a float
      let r := span Char.isDigit (c :: cs)
      match r.2 with
      | '.' :: cs2 =>
        let r2 := span Char.isDigit cs2
        (tokenizeFuel fuel r2.2).map
          (fun ts => .fnum ((natOfDigits r.1 : ℚ) + fracOfDigits r2.1) :: ts)
      | rest =>
        (tokenizeFuel fuel rest).map (fun ts => .num (natOfDigits r.1) :: ts)
    else if isLetter c then
      let r := span isLetter (c :: cs)
      let s : String := ⟨r.1⟩
      (tokenizeFuel fuel r.2).map
        (fun ts => (if s = "to" then .kwTo else .ident s) :: ts)
    else
      match c, cs with
      | '*', '*' :: cs2 => (tokenizeFuel fuel cs2).map (fun ts => .dstar :: ts)
      | '/', '/' :: cs2 => (tokenizeFuel fuel cs2).map (fun ts => .dslash :: ts)
      | '*', _ => (tokenizeFuel fuel cs).map (fun ts => .star :: ts)
      | '·', _ => (tokenizeFuel fuel cs).map (fun ts => .star :: ts)
      | '/', _ => (tokenizeFuel fuel cs).map (fun ts => .slash :: ts)
      | '÷', _ => (tokenizeFuel fuel cs).map (fun ts => .slash :: ts)
      | '+', _ => (tokenizeFuel fuel cs).map (fun ts => .plus :: ts)
      | '-', _ => (tokenizeFuel fuel cs).map (fun ts => .minus :: ts)
      | '−', _ => (tokenizeFuel fuel cs).map (fun ts => .minus :: ts)
      | '^', _ => (tokenizeFuel fuel cs).map (fun ts => .caret :: ts)
      | '!', _ => (tokenizeFuel fuel cs).map (fun ts => .bang :: ts)
      | '(', _ => (tokenizeFuel fuel cs).map (fun ts => .lparen :: ts)
      | ')', _ => (tokenizeFuel fuel cs).map (fun ts => .rparen :: ts)
      | _, _ => none

def tokenize (s : String) : Option (List Tok) :=
  tokenizeFuel (s.length + 1) s.toList

/-! ## Expression tree (operators/__init__.py node classes)

One constructor per node class built by the parse actions:
`sympy.Integer` / `PscicFloat` literals sit in the tree as raw values,
`Constant`/`Unit` nodes keep the looked-up name, and the operator
classes `Plus`, `Minus`, `Times`, `Divide`, `IntDivide`, `Exponent`,
`MinusSign`, `PlusSign`, `Factorial` become constructors. -/

inductive PExpr where
  | intLit (n : ℕ)        -- raw sympy.Integer in the tree (process_int)
  | floatLit (q : ℚ)      -- raw sympy.Float in the tree (process_float)
  | const (name : String) -- Constant / Unit node
  | plus (l r : PExpr)
  | minus (l r : PExpr)
  | times (l r : PExpr)
  | divide (l r : PExpr)
  | intDivide (l r : PExpr)
  | exponent (l r : PExpr)
  | minusSign (r : PExpr)
  | plusSign (r : PExpr)
  | factorial (l : PExpr)
  deriving DecidableEq, Repr

/-- Fold a chain of leading signs in an exponent onto its operand
(`Exponent.process`): the sign list `[s1, …, sn]` becomes
`s1 (s2 (… sn operand))`, a single signed sub-expression. -/
def applySigns (signs : List Tok) (rhs : PExpr) : PExpr :=
  signs.foldr
    (fun s acc => if s = Tok.minus then PExpr.minusSign acc else PExpr.plusSign acc)
    rhs

/-- Collect `signop*` (`ZeroOrMore(signop)` before the exponent operand). -/
def takeSigns : List Tok → List Tok × List Tok
  | Tok.plus :: ts =>
    let r := takeSigns ts
    (Tok.plus :: r.1, r.2)
  | Tok.minus :: ts =>
    let r := takeSigns ts
    (Tok.minus :: r.1, r.2)
  | ts => ([], ts)

/-- Stacked factorials (`fact_expr = func_term + OneOrMore(factop)`,
nested left by `PostfixSymbol.process`). -/
def takeBangs (e : PExpr) : List Tok → PExpr × List Tok
  | Tok.bang :: ts => takeBangs (PExpr.factorial e) ts
  | ts => (e, ts)

/-! Recursive-descent parser, one function per grammar level of
`parseexpr.py`, matching pyparsing's ordered choice.  All functions
take explicit fuel; every recursive call consumes fuel, and fuel
`tokens.length + 1` always suffices for the inputs below.  The
function-call and matrix-literal alternatives of `term`/`func_term`
are not reachable from the token alphabet used here and are elided;
`Matrix.process` is modelled separately below. -/

mutual

/-- `term = operand | ( lpar + expr + rpar )`. -/
def parseTerm : ℕ → List Tok → Option (PExpr × List Tok)
  | 0, _ => none
  | fuel + 1, ts =>
    match ts with
    | .num n :: rest => some (.intLit n, rest)
    | .fnum q :: rest => some (.floatLit q, rest)
    | .ident s :: rest => some (.const s, rest)
    | .lparen :: rest =>
      match parseAdd fuel rest with
      | some (e, .rparen :: rest2) => some (e, rest2)
      | _ => none
    | _ => none

/-- `fact_term = fact_expr | func_term`. -/
def parseFact : ℕ → List Tok → Option (PExpr × List Tok)
  | 0, _ => none
  | fuel + 1, ts =>
    match parseTerm fuel ts with
    | some (e, rest) => some (takeBangs e rest)
    | none => none

/-- `exp_term <<= exp_expr | fact_term`; `exp_expr = fact_term + expop
+ ZeroOrMore(signop) + exp_term` (right recursion ⇒ right
associativity); `^` and `**` are the same `expop`. -/
def parseExp : ℕ → List Tok → Option (PExpr × List Tok)
  | 0, _ => none
  | fuel + 1, ts =>
    match parseFact fuel ts with
    | some (lhs, rest) =>
      match rest with
      | .caret :: rest2 =>
        let sg := takeSigns rest2
        match parseExp fuel sg.2 with
        | some (rhs, rest3) => some (.exponent lhs (applySigns sg.1 rhs), rest3)
        | none => none
      | .dstar :: rest2 =>
        let sg := takeSigns rest2
        match parseExp fuel sg.2 with
        | some (rhs, rest3) => some (.exponent lhs (applySigns sg.1 rhs), rest3)
        | none => none
      | _ => some (lhs, rest)
    | none => none

/-- `sign_term <<= sign_expr | exp_term`; `sign_expr` requires a
literal sign ahead (`FollowedBy`) and recurses into `sign_term`. -/
def parseSign : ℕ → List Tok → Option (PExpr × List Tok)
  | 0, _ => none
  | fuel + 1, ts =>
    match ts with
    | .plus :: rest =>
      match parseSign fuel rest with
      | some (e, rest2) => some (.plusSign e, rest2)
      | none => none
    | .minus :: rest =>
      match parseSign fuel rest with
      | some (e, rest2) => some (.minusSign e, rest2)
      | none => none
    | _ => parseExp fuel ts

/-- One `sm_exp_expr | variable` item of `signless_mult_expr`:
a bare identifier, optionally raised to a power
(`sm_exp_expr = variable + expop + ZeroOrMore(signop) + exp_term`). -/
def parseSmItem : ℕ → List Tok → Option (PExpr × List Tok)
  | 0, _ => none
  | fuel + 1, ts =>
    match ts with
    | .ident s :: .caret :: rest =>
      let sg := takeSigns rest
      match parseExp fuel sg.2 with
      | some (rhs, rest2) => some (.exponent (.const s) (applySigns sg.1 rhs), rest2)
      | none => none
    | .ident s :: .dstar :: rest =>
      let sg := takeSigns rest
      match parseExp fuel sg.2 with
      | some (rhs, rest2) => some (.exponent (.const s) (applySigns sg.1 rhs), rest2)
      | none => none
    | .ident s :: rest => some (.const s, rest)
    | _ => none

/-- `OneOrMore(sm_exp_expr | variable)` tail of `signless_mult_expr`,
folded left as omitted multiplication (`InfixLeftSymbol.process` with
the `*` inserted for the missing operator). -/
def parseSmTail : ℕ → PExpr → List Tok → PExpr × List Tok
  | 0, acc, ts => (acc, ts)
  | fuel + 1, acc, ts =>
    match parseSmItem fuel ts with
    | some (item, rest) => parseSmTail fuel (.times acc item) rest
    | none => (acc, ts)

/-- `signless_mult_term = signless_mult_expr | sign_term`: signless
multiplication binds between unary sign and explicit `*`/`/`. -/
def parseSignless : ℕ → List Tok → Option (PExpr × List Tok)
  | 0, _ => none
  | fuel + 1, ts =>
    match parseSign fuel ts with
    | some (e, rest) => some (parseSmTail fuel e rest)
    | none => none

/-- `mult_expr = signless_mult_term + OneOrMore(multop +
signless_mult_term)`, left-associative (`InfixLeftSymbol.process`). -/
def parseMulTail : ℕ → PExpr → List Tok → PExpr × List Tok
  | 0, acc, ts => (acc, ts)
  | fuel + 1, acc, ts =>
    match ts with
    | .star :: rest =>
      match parseSignless fuel rest with
      | some (e, rest2) => parseMulTail fuel (.times acc e) rest2
      | none => (acc, ts)
    | .slash :: rest =>
      match parseSignless fuel rest with
      | some (e, rest2) => parseMulTail fuel (.divide acc e) rest2
      | none => (acc, ts)
    | .dslash :: rest =>
      match parseSignless fuel rest with
      | some (e, rest2) => parseMulTail fuel (.intDivide acc e) rest2
      | none => (acc, ts)
    | _ => (acc, ts)

def parseMul : ℕ → List Tok → Option (PExpr × List Tok)
  | 0, _ => none
  | fuel + 1, ts =>
    match parseSignless fuel ts with
    | some (e, rest) => some (parseMulTail fuel e rest)
    | none => none

/-- `add_expr = mult_term + OneOrMore(addop + mult_term)`,
left-associative. -/
def parseAddTail : ℕ → PExpr → List Tok → PExpr × List Tok
  | 0, acc, ts => (acc, ts)
  | fuel + 1, acc, ts =>
    match ts with
    | .plus :: rest =>
      match parseMul fuel rest with
      | some (e, rest2) => parseAddTail fuel (.plus acc e) rest2
      | none => (acc, ts)
    | .minus :: rest =>
      match parseMul fuel rest with
      | some (e, rest2) => parseAddTail fuel (.minus acc e) rest2
      | none => (acc, ts)
    | _ => (acc, ts)

/-- `expr <<= add_term`. -/
def parseAdd : ℕ → List Tok → Option (PExpr × List Tok)
  | 0, _ => none
  | fuel + 1, ts =>
    match parseMul fuel ts with
    | some (e, rest) => some (parseAddTail fuel e rest)
    | none => none

end

/-- Parse a token list as a complete expression (`parseAll=True`):
the whole list must be consumed. -/
def parseTokens (ts : List Tok) : Option PExpr :=
  match parseAdd (8 * (ts.length + 1)) ts with
  | some (e, []) => some e
  | _ => none

/-- `parse`: tokenize, then parse as a complete expression. -/
def parse (s : String) : Option PExpr :=
  (tokenize s).bind parseTokens

/-! ## Unit System model (pint, consumed through `units.py`)

The Unit System is an external collaborator; it is modelled at its
narrow interface: a unit is a product of named base units with
rational exponents, each base unit carrying a physical dimension
(exponents of length/time/mass) and an exact SI conversion factor.
The registry below covers the units the claims exercise. -/

structure Dim where
  length : ℚ
  time : ℚ
  mass : ℚ
  deriving DecidableEq, Repr

def Dim.zero : Dim := ⟨0, 0, 0⟩

def Dim.add (a b : Dim) : Dim := ⟨a.length + b.length, a.time + b.time, a.mass + b.mass⟩

def Dim.smul (q : ℚ) (d : Dim) : Dim := ⟨q * d.length, q * d.time, q * d.mass⟩

/-- Dimension of a base unit name (unknown names are dimensionless). -/
def baseDim : String → Dim
  | "m" | "cm" | "km" | "in" => ⟨1, 0, 0⟩
  | "s" | "h" => ⟨0, 1, 0⟩
  | "kg" | "g" => ⟨0, 0, 1⟩
  | _ => Dim.zero

/-- Exact SI conversion factor of a base unit (1 inch = 2.54 cm
exactly, hence 127/5000 m). -/
def baseFactor : String → ℚ
  | "cm" => 1 / 100
  | "km" => 1000
  | "in" => 127 / 5000
  | "h" => 3600
  | "g" => 1 / 1000
  | _ => 1

/-- Whether a name resolves in the unit registry (`units.ureg`). -/
def isKnownUnit (s : String) : Bool :=
  s = "m" || s = "cm" || s = "km" || s = "in" || s = "s" || s = "h" ||
  s = "kg" || s = "g"

/-- A unit: product of base units with rational exponents.  The empty
list is `dimensionless`. -/
def UnitV := List (String × ℚ)
  deriving DecidableEq, Repr

def dimOf (u : UnitV) : Dim :=
  u.foldl (fun acc p => acc.add (Dim.smul p.2 (baseDim p.1))) Dim.zero

/-- Merge one base-unit power into a unit product. -/
def addExp (u : UnitV) (b : String) (e : ℚ) : UnitV :=
  match u with
  | [] => [(b, e)]
  | (b0, e0) :: rest =>
    if b0 = b then (b0, e0 + e) :: rest else (b0, e0) :: addExp rest b e

/-- Drop zero exponents (pint's cancellation of units). -/
def ucanon (u : UnitV) : UnitV := u.filter (fun p => p.2 ≠ 0)

def umul (u1 u2 : UnitV) : UnitV :=
  ucanon (u2.foldl (fun acc p => addExp acc p.1 p.2) u1)

def uinv (u : UnitV) : UnitV := u.map (fun p => (p.1, -p.2))

/-- Unit raised to a rational power (pint unit algebra). -/
def upow (u : UnitV) (e : ℚ) : UnitV := ucanon (u.map (fun p => (p.1, p.2 * e)))

/-- SI factor of a unit, defined when all exponents are integral
(the only case the modelled conversions need). -/
def factorOpt (u : UnitV) : Option ℚ :=
  u.foldr
    (fun p acc =>
      match acc with
      | none => none
      | some f => if p.2.den = 1 then some (f * baseFactor p.1 ^ (p.2.num : ℤ)) else none)
    (some 1)

/-- A pint quantity: exact magnitude and unit. -/
structure Quantity where
  mag : ℚ
  unit : UnitV
  deriving DecidableEq, Repr

/-- pint `Quantity.to`: convert to a target unit, raising
`DimensionalityError` when the dimensions differ. -/
def pintTo (q : Quantity) (target : UnitV) : Except String Quantity :=
  if dimOf q.unit ≠ dimOf target then .error "DimensionalityError"
  else
    match factorOpt q.unit, factorOpt target with
    | some f1, some f2 => .ok ⟨q.mag * (f1 / f2), target⟩
    | _, _ => .error "fractional-exponent conversion outside model"

/-! ## Quantity bridge (unitbridge.py `Quantity`) -/

/-- `Quantity.convert_to`: the unit-to-unit scale factor is obtained
from the Unit System for the quantity `1 × from-unit` at full
requested precision (exact here), then multiplied into the original
magnitude — the magnitude itself never passes through a float. -/
def convert_to (self : Quantity) (unit : UnitV) : Except String Quantity :=
  match pintTo ⟨1, self.unit⟩ unit with
  | .ok f => .ok ⟨f.mag * self.mag, unit⟩
  | .error e => .error e

/-- pint equality `self.quantity == other.quantity`: `False` when the
dimensions are incompatible, otherwise comparison after conversion. -/
def qeq (a b : Quantity) : Bool :=
  if dimOf a.unit ≠ dimOf b.unit then false
  else
    match factorOpt a.unit, factorOpt b.unit with
    | some f1, some f2 => a.mag * f1 = b.mag * f2
    | _, _ => false

/-- The exponent argument of `Quantity.__pow__`, by the sympy
properties the code tests: a wrapped `Quantity`, a number that is
real and finite, a non-real/non-finite number, or something
symbolic. -/
inductive PowExp where
  | qty (q : Quantity)
  | num (x : ℚ)
  | nonreal
  | sym (s : String)
  deriving DecidableEq, Repr

/-- Result of `Quantity.__pow__`: an evaluated quantity whose
magnitude is `base ^ exp` and whose unit is the old unit raised to
`exp`; an unevaluated symbolic power (`super().__pow__`); or a
`DimensionalityError` escaping from `.to(ureg.dimensionless)`. -/
inductive PowResult where
  | evaluated (base exp : ℚ) (u : UnitV)
  | symbolicPow (b : Quantity) (e : PowExp)
  | dimError
  deriving DecidableEq, Repr

/-- `Quantity.__pow__`: a `Quantity` exponent is unwrapped via
`.to(ureg.dimensionless)` (raising for dimension-bearing exponents);
a real finite number is used as the exponent; anything else keeps the
power symbolic. -/
def qpow (self : Quantity) (other : PowExp) : PowResult :=
  match other with
  | .qty q =>
    match pintTo q [] with
    | .ok q0 => .evaluated self.mag q0.mag (upow self.unit q0.mag)
    | .error _ => .dimError
  | .num x => .evaluated self.mag x (upow self.unit x)
  | .nonreal => .symbolicPow self .nonreal
  | .sym s => .symbolicPow self (.sym s)

/-! ## Numeric Engine model and evaluation (operators/__init__.py)

Values are sympy numbers at the engine's interface: `exact` covers
`sympy.Integer`/`sympy.Rational` (which sympy normalises into each
other), `float` is `sympy.Float` with its value kept exact, `quant`
is a bridged `unitbridge.Quantity`.  `inf`/`ninf`/`zoo`/`nan` are the
signed infinities, complex infinity and NaN; `err` models a Python
exception propagating out of `evaluate()`.  Combinations the claims
do not exercise (symbolic constants, surds, infinity arithmetic) are
coarsened to `nan`/`err` and documented as such. -/

inductive Value where
  | exact (q : ℚ)
  | float (q : ℚ)
  | quant (q : Quantity)
  | inf | ninf | zoo | nan
  | err (s : String)
  deriving DecidableEq, Repr

/-- sympy addition; pint addition for quantities (dimensions must be
compatible, `DimensionalityError` otherwise); a plain number added to
a quantity goes through `.to(dimensionless)` (`Quantity.__add__`). -/
def vadd (a b : Value) : Value :=
  match a, b with
  | .exact x, .exact y => .exact (x + y)
  | .exact x, .float y => .float (x + y)
  | .float x, .exact y => .float (x + y)
  | .float x, .float y => .float (x + y)
  | .quant qa, .quant qb =>
    match pintTo qb qa.unit with
    | .ok qb2 => .quant ⟨qa.mag + qb2.mag, qa.unit⟩
    | .error e => .err e
  | .quant qa, .exact y | .quant qa, .float y =>
    match pintTo qa [] with
    | .ok q0 => .exact (q0.mag + y)
    | .error e => .err e
  | .exact x, .quant qb | .float x, .quant qb =>
    match pintTo qb [] with
    | .ok q0 => .exact (x + q0.mag)
    | .error e => .err e
  | .err s, _ => .err s
  | _, .err s => .err s
  | _, _ => .nan

def vneg (a : Value) : Value :=
  match a with
  | .exact x => .exact (-x)
  | .float x => .float (-x)
  | .quant q => .quant ⟨-q.mag, q.unit⟩
  | .inf => .ninf
  | .ninf => .inf
  | v => v

def vsub (a b : Value) : Value := vadd a (vneg b)

/-- sympy / pint multiplication (`Quantity.__mul__`/`__rmul__`
multiply the magnitude and keep or combine units). -/
def vmul (a b : Value) : Value :=
  match a, b with
  | .exact x, .exact y => .exact (x * y)
  | .exact x, .float y => .float (x * y)
  | .float x, .exact y => .float (x * y)
  | .float x, .float y => .float (x * y)
  | .quant qa, .quant qb => .quant ⟨qa.mag * qb.mag, umul qa.unit qb.unit⟩
  | .quant qa, .exact y | .quant qa, .float y => .quant ⟨qa.mag * y, qa.unit⟩
  | .exact x, .quant qb | .float x, .quant qb => .quant ⟨x * qb.mag, qb.unit⟩
  | .err s, _ => .err s
  | _, .err s => .err s
  | _, _ => .nan

/-- sympy division.  Division by the exact integer zero gives complex
infinity `zoo`; division of a nonzero number by `Float(0)` follows
IEEE 754 and gives a signed infinity (the behaviour the source
comment in `Operator._eval` documents); `0/0` is NaN. -/
def vdiv (a b : Value) : Value :=
  match a, b with
  | .exact x, .exact y =>
    if y = 0 then (if x = 0 then .nan else .zoo) else .exact (x / y)
  | .float x, .exact y =>
    if y = 0 then (if x = 0 then .nan else .zoo) else .float (x / y)
  | .exact x, .float y | .float x, .float y =>
    if y = 0 then (if x = 0 then .nan else if x > 0 then .inf else .ninf)
    else .float (x / y)
  | .quant qa, .quant qb =>
    if qb.mag = 0 then .err "quantity division by zero outside model"
    else .quant ⟨qa.mag / qb.mag, umul qa.unit (uinv qb.unit)⟩
  | .quant qa, .exact y | .quant qa, .float y =>
    if y = 0 then .err "quantity division by zero outside model"
    else .quant ⟨qa.mag / y, qa.unit⟩
  | .exact x, .quant qb | .float x, .quant qb =>
    if qb.mag = 0 then .err "quantity division by zero outside model"
    else .quant ⟨x / qb.mag, umul (uinv qb.unit) []⟩
  | .err s, _ => .err s
  | _, .err s => .err s
  | _, _ => .nan

/-- Map a `Value` exponent to the case analysis of
`Quantity.__pow__`. -/
def powExpOfValue (v : Value) : PowExp :=
  match v with
  | .exact x => .num x
  | .float x => .num x
  | .quant q => .qty q
  | .inf | .ninf | .zoo | .nan => .nonreal
  | .err s => .sym s

/-- Interpret a `PowResult` back as a `Value` (magnitudes with
non-integral exponents stay outside the numeric model). -/
def valueOfPowResult (r : PowResult) : Value :=
  match r with
  | .evaluated b e u =>
    if e.den = 1 then .quant ⟨b ^ (e.num : ℤ), u⟩
    else .err "irrational magnitude outside model"
  | .symbolicPow _ _ => .err "symbolic power outside numeric model"
  | .dimError => .err "DimensionalityError"

/-- sympy exponentiation for numbers (integral exponents only; surds
are outside the numeric model), and the quantity bridge `__pow__` /
`__rpow__` for unit-bearing operands. -/
def vpow (a b : Value) : Value :=
  match a, b with
  | .exact x, .exact e =>
    if e.den = 1 then
      (if x = 0 ∧ e.num < 0 then .zoo else .exact (x ^ (e.num : ℤ)))
    else .nan
  | .exact x, .float e | .float x, .exact e | .float x, .float e =>
    if e.den = 1 then
      (if x = 0 ∧ e.num < 0 then .inf else .float (x ^ (e.num : ℤ)))
    else .nan
  | .quant qa, eb => valueOfPowResult (qpow qa (powExpOfValue eb))
  | .exact x, .quant qb | .float x, .quant qb =>
    match pintTo qb [] with
    | .ok q0 =>
      if q0.mag.den = 1 then .exact (x ^ (q0.mag.num : ℤ))
      else .err "irrational magnitude outside model"
    | .error e => .err e
  | .err s, _ => .err s
  | _, .err s => .err s
  | _, _ => .nan

/-- `sympy.floor` (for `IntDivide`). -/
def vfloor (a : Value) : Value :=
  match a with
  | .exact x => .exact ⌊x⌋
  | .float x => .exact ⌊x⌋
  | v => v

/-- `sympy.factorial` on the values the claims exercise. -/
def vfact (a : Value) : Value :=
  match a with
  | .exact x =>
    if x.den = 1 ∧ 0 ≤ x.num then .exact (Nat.factorial x.num.toNat) else .nan
  | .err s => .err s
  | _ => .nan

/-- `Constant.process` resolution at evaluation level: known unit
names evaluate to `Quantity(1 × unit)` (`Unit.process`); the symbolic
constants (`pi`, `e`, `x`, …) lie outside the numeric model. -/
def constValue (s : String) : Value :=
  if isKnownUnit s then .quant ⟨1, [(s, 1)]⟩
  else .err "symbolic constant outside numeric model"

/-- The float-zero fix of `Operator._eval`: an argument that is *not*
an `Operator` instance (a raw literal in the tree) and is a
`sympy.Float` equal to zero is replaced by the exact `sympy.Integer`
0; results of evaluating `Operator` arguments are passed through
unchanged. -/
def zeroFix (e : PExpr) (v : Value) : Value :=
  match e with
  | .floatLit q => if q = 0 then .exact 0 else v
  | _ => v

/-- `Operator.evaluate` dispatch: operands go through `_eval`
(`zeroFix` composed with recursive evaluation), then the node's
arithmetic is delegated to the Numeric Engine / Quantity bridge. -/
def evalOp : PExpr → Value
  | .intLit n => .exact n
  | .floatLit q => .float q
  | .const s => constValue s
  | .plus l r => vadd (zeroFix l (evalOp l)) (zeroFix r (evalOp r))
  | .minus l r => vsub (zeroFix l (evalOp l)) (zeroFix r (evalOp r))
  | .times l r => vmul (zeroFix l (evalOp l)) (zeroFix r (evalOp r))
  | .divide l r => vdiv (zeroFix l (evalOp l)) (zeroFix r (evalOp r))
  | .intDivide l r => vfloor (vdiv (zeroFix l (evalOp l)) (zeroFix r (evalOp r)))
  | .exponent l r => vpow (zeroFix l (evalOp l)) (zeroFix r (evalOp r))
  | .minusSign r => vneg (zeroFix r (evalOp r))
  | .plusSign r => zeroFix r (evalOp r)
  | .factorial l => vfact (zeroFix l (evalOp l))

/-- One argument of `Operator._eval`: `arg.evaluate()` for operator
nodes, the raw value (with the float-zero fix) for literals. -/
def evalChild (e : PExpr) : Value := zeroFix e (evalOp e)

/-- `Expression.evaluate` = `self._eval(self.expr)`. -/
def evaluate (e : PExpr) : Value := evalChild e

/-! ## Conversion and Equality nodes (operators/__init__.py) -/

/-- `Conversion.evaluate`: evaluate the expression, wrap a plain
number as a dimensionless quantity, then `convert_to` the requested
unit. -/
def conversionEvaluate (v : Value) (toUnit : UnitV) : Except String Quantity :=
  match v with
  | .quant q => convert_to q toUnit
  | .exact x => convert_to ⟨x, []⟩ toUnit
  | .float x => convert_to ⟨x, []⟩ toUnit
  | _ => .error "conversion of non-numeric value outside model"

/-- `Equality.evaluate` restricted to two quantity operands:
`sympy.Eq` resolves through `Quantity.__eq__` (pint equality), and
the surrounding `try`/`except ValueError` turns any unit-mismatch
error into `False`, so incompatible units always give `False` and
never an error. -/
def equalityEvaluate (lhs rhs : Quantity) : Except String Bool :=
  .ok (qeq lhs rhs)

/-! ## Matrix node (operators/__init__.py `Matrix`) -/

inductive MatErr where
  | variableLengthRows   -- VariableLengthRowsError at construction
  | shapeError           -- sympy.Matrix rejecting ragged rows at evaluation
  | noData               -- iterating `None` data (empty literal crash)
  deriving DecidableEq, Repr

structure MatrixNode where
  rows : ℕ
  cols : ℕ
  data : Option (List (List PExpr))
  deriving DecidableEq, Repr

/-- `Matrix.process`: record the shape and raise
`VariableLengthRowsError` if any row's length differs from the
first's; the empty literal keeps `None` data. -/
def matrixProcess (toks : List (List PExpr)) : Except MatErr MatrixNode :=
  match toks with
  | [] => .ok ⟨0, 0, none⟩
  | r0 :: rest =>
    if (r0 :: rest).all (fun r => r.length = r0.length) then
      .ok ⟨(r0 :: rest).length, r0.length, some (r0 :: rest)⟩
    else .error .variableLengthRows

def isRectangular (d : List (List PExpr)) : Bool :=
  match d with
  | [] => true
  | r0 :: rest => (r0 :: rest).all (fun r => r.length = r0.length)

/-- `Matrix.evaluate`: `_eval` every cell, then hand the rows to
`sympy.Matrix` — which would reject ragged rows (modelled as
`shapeError`), and iterating `None` data crashes (`noData`).  The
evaluation itself performs no rectangularity validation. -/
def matrixEvaluate (m : MatrixNode) : Except MatErr (List (List Value)) :=
  match m.data with
  | none => .error .noData
  | some d =>
    if isRectangular d then .ok (d.map (fun row => row.map evalChild))
    else .error .shapeError

/-! ## Roman numerals (result.py `RomanInt`) -/

/-- `s` repeated `n` times. -/
def strRepeat (s : String) (n : ℕ) : String :=
  match n with
  | 0 => ""
  | n + 1 => s ++ strRepeat s n

/-- One entry of `RomanInt.rev_table` for a digit `d ∈ [0;9]` at a
decimal position with numerals `one`/`five`/`ten`: the canonical
greedy form `five^(d/5) one^(d%5)`, with the subtraction forms `IV`
and `IX` overriding the sloppy ones (built by the table loop in
`RomanInt`). -/
def revEntry (d : ℕ) (one five ten : String) : String :=
  if d % 5 = 4 then one ++ strRepeat five (1 - d / 5) ++ strRepeat ten (d / 5)
  else strRepeat five (d / 5) ++ strRepeat one (d % 5)

/-- `RomanInt.int_to_roman` on a sympy number (taken as an exact
rational): non-integral input raises, a leading `-` is emitted for
values below 1 before taking the absolute value, the magnitude must
lie in [1;4999], and the digits are rendered greedily from the
table. -/
def int_to_roman (q : ℚ) : Except String String :=
  if q.den ≠ 1 then .error "Roman numerals are only supported for integers."
  else
    let pre : String := if q.num < 1 then "-" else ""
    let n : ℕ := q.num.natAbs
    if n < 1 ∨ n > 4999 then
      .error "Roman numerals are only supported on the interval ±[1;4999]!"
    else
      .ok (pre ++ strRepeat "M" (n / 1000)
        ++ revEntry (n % 1000 / 100) "C" "D" "M"
        ++ revEntry (n % 100 / 10) "X" "L" "C"
        ++ revEntry (n % 10) "I" "V" "X")

/-! ## Result formatter (result.py `Result`)

Configuration enums of `result.py`. -/

inductive Mode where
  | tryExact | toFloat
  deriving DecidableEq, Repr

inductive NumSys where
  | binary | octal | decimal | hexadecimal | roman
  deriving DecidableEq, Repr

inductive UnitMode where
  | unone | toBase | toBest
  deriving DecidableEq, Repr

/-- `Result._Surr`: the surrounding operation, deciding parentheses. -/
inductive Surr where
  | none | addition | multiplication | expBase | expExp | functionCall
  deriving DecidableEq, Repr

/-- `Result._Context`: exponent nesting depth and surrounding operation. -/
structure Ctx where
  isExponent : ℕ
  surr : Surr
  deriving DecidableEq, Repr

/-! String helpers mirroring the Python string operations used by the
formatter. -/

/-- Split at the first occurrence of `c` (Python
`(s.split(c) + [""])[:2]`-style: no occurrence gives `(s, "")`). -/
def splitOnce (c : Char) : List Char → List Char × List Char
  | [] => ([], [])
  | x :: xs =>
    if x = c then ([], xs)
    else
      let r := splitOnce c xs
      (x :: r.1, r.2)

def rstripZeros (l : List Char) : List Char :=
  (l.reverse.dropWhile (· = '0')).reverse

/-- Python `lstrip("+0")`. -/
def lstripPlusZeros (l : List Char) : List Char :=
  l.dropWhile (fun c => c = '+' || c = '0')

def startsWithChar (c : Char) (l : List Char) : Bool :=
  match l with
  | x :: _ => x = c
  | [] => false

def intStr (n : ℤ) : String :=
  (if n < 0 then "-" else "") ++ ⟨Nat.toDigits 10 n.natAbs⟩

/-! Decimal rendering.  `str(number.evalf(n=digits))` is the external
Numeric Engine's float printing; it is modelled as rounding to
`digits` significant figures and printing positionally (always with a
decimal dot, as sympy does) when the decimal exponent fits, in
normalised scientific `d.ddd…e±k` form otherwise. -/

/-- Decimal exponent of `q > 0`: the unique `e` with
`10^e ≤ q < 10^(e+1)`. -/
def decExp (q : ℚ) : ℤ :=
  let a : ℤ := Nat.log 10 q.num.natAbs
  let b : ℤ := Nat.log 10 q.den
  if (10 : ℚ) ^ (a - b) ≤ q then a - b else a - b - 1

/-- Mantissa (as a `k`-digit number) and exponent of `q > 0` rounded
to `k` significant figures. -/
def mantissaExp (q : ℚ) (k : ℕ) : ℕ × ℤ :=
  let e := decExp q
  let m := (⌊q * (10 : ℚ) ^ ((k : ℤ) - 1 - e) + 1 / 2⌋).toNat
  if m = 10 ^ k then (10 ^ (k - 1), e + 1) else (m, e)

/-- Model of `str(sympy.Float(q).evalf(n=k))`. -/
def evalfStr (q : ℚ) (k : ℕ) : String :=
  if q = 0 then "0.0"
  else
    let sgn := if q < 0 then "-" else ""
    let me := mantissaExp |q| k
    let ds := Nat.toDigits 10 me.1
    let e := me.2
    if 0 ≤ e ∧ e < (k : ℤ) then
      sgn ++ (⟨ds.take (e.toNat + 1)⟩ : String) ++ "." ++ (⟨ds.drop (e.toNat + 1)⟩ : String)
    else
      sgn ++ (⟨ds.take 1⟩ : String) ++ "." ++ (⟨ds.drop 1⟩ : String)
        ++ "e" ++ (if e < 0 then "-" else "+") ++ (⟨Nat.toDigits 10 e.natAbs⟩ : String)

/-! Non-decimal rendering (`Result._to_other_base`): repeated digit
extraction in the target base with ceiling-of-half-base rounding of
the last retained digit. -/

def baseVal : NumSys → ℕ
  | .binary => 2
  | .octal => 8
  | .hexadecimal => 16
  | .decimal => 10
  | .roman => 1001

def basePre : NumSys → String
  | .binary => "0b"
  | .octal => "0o"
  | .hexadecimal => "0x"
  | _ => ""

/-- Python `bin`/`oct`/`hex` literal of an integer. -/
def pyIntLit (b : ℕ) (pre : String) (n : ℤ) : String :=
  (if n < 0 then "-" else "") ++ pre ++ (⟨Nat.toDigits b n.natAbs⟩ : String)

/-- The digit-extraction loop of `_to_other_base` (first entry is the
integer part; then base-`b` fraction digits until exact or the digit
budget is exhausted). -/
def digitLoop (b : ℕ) : ℕ → ℕ → ℕ → List ℕ
  | 0, _, _ => []
  | fuel + 1, num, den =>
    let d := num / den
    let num2 := num % den * b
    if num2 = 0 then [d] else d :: digitLoop b fuel num2 den

/-- Rounding of the last retained digit: `l[-2] += l[-1] //
ceil(b/2)` then drop the last digit, applied when more digits were
produced than requested. -/
def roundDigits (b digits : ℕ) (l : List ℕ) : List ℕ :=
  if l.length > digits + 1 then
    match l.reverse with
    | last :: prev :: rest => ((prev + last / ((b + 1) / 2)) :: rest).reverse
    | _ => l
  else l

/-- `Result._hex_lookup` (uppercase); an index out of the table (only
reachable through a rounding carry, which would raise in the source)
is rendered as a placeholder. -/
def hexChar (d : ℕ) : String :=
  ["0", "1", "2", "3", "4", "5", "6", "7", "8", "9",
   "A", "B", "C", "D", "E", "F"].getD d "?"

def toOtherBaseInt (ns : NumSys) (n : ℤ) : String :=
  pyIntLit (baseVal ns) (basePre ns) n

/-- `_to_other_base` on a non-integer value (the source's round trip
through `Rational(str(evalf(10*digits)))` keeps the exact value here). -/
def toOtherBaseReal (ns : NumSys) (digits : ℕ) (q : ℚ) : String :=
  let b := baseVal ns
  let sgn := if q < 0 then "-" else ""
  let r := |q|
  let l := roundDigits b digits (digitLoop b (digits + 2) r.num.natAbs r.den)
  match l with
  | [d] => sgn ++ pyIntLit b (basePre ns) d
  | d :: restD => sgn ++ pyIntLit b (basePre ns) d ++ "."
      ++ String.join (restD.map hexChar)
  | [] => sgn

/-- `Result._decimal_as_html` (the `float("inf")` special cases are
unreachable for exact rationals). -/
def decimalAsHtml (ns : NumSys) (digits : ℕ) (allowSup isBase : Bool)
    (number : ℚ) : Except String String :=
  match ns with
  | .decimal =>
    let f := (evalfStr number digits).data
    let pe := splitOnce 'e' f
    let pd := splitOnce '.' pe.1
    let pre2 := rstripZeros pd.2
    let pre : List Char := if pre2 ≠ [] then pd.1 ++ '.' :: pre2 else pd.1
    let exp := lstripPlusZeros pe.2
    let withPar : Bool :=
      isBase && ((!exp.isEmpty && allowSup) || startsWithChar '-' pre)
    let lp : String := if withPar then "(" else ""
    let rp : String := if withPar then ")" else ""
    if exp.isEmpty then .ok (lp ++ (⟨pre⟩ : String) ++ rp)
    else if allowSup then
      .ok (lp ++ (⟨pre⟩ : String) ++ "·10<sup>" ++ (⟨exp⟩ : String) ++ "</sup>" ++ rp)
    else .ok (lp ++ (⟨pre⟩ : String) ++ "e" ++ (⟨exp⟩ : String) ++ rp)
  | .roman => int_to_roman number
  | _ => .ok (toOtherBaseReal ns digits number)

/-- `Result._integer_as_html`. -/
def integerAsHtml (ns : NumSys) (digits : ℕ) (n : ℤ) : Except String String :=
  match ns with
  | .decimal => .ok (intStr n)
  | .roman => int_to_roman (n : ℚ)
  | _ => .ok (toOtherBaseInt ns n)

/-- `Result.__unicode_fractions`. -/
def unicodeFraction (q : ℚ) : Option String :=
  let table : List (ℚ × String) :=
    [(1/2, "½"), (-(1/2), "-½"), (1/3, "⅓"), (-(1/3), "-⅓"),
     (1/4, "¼"), (-(1/4), "-¼"), (1/5, "⅕"), (-(1/5), "-⅕"),
     (1/6, "⅙"), (-(1/6), "-⅙"), (1/7, "⅐"), (-(1/7), "-⅐"),
     (1/8, "⅛"), (-(1/8), "-⅛"), (1/9, "⅑"), (-(1/9), "-⅑"),
     (1/10, "⅒"), (-(1/10), "-⅒"), (2/3, "⅔"), (-(2/3), "-⅔"),
     (3/4, "¾"), (-(3/4), "-¾"), (2/5, "⅖"), (-(2/5), "-⅖"),
     (3/5, "⅗"), (-(3/5), "-⅗"), (4/5, "⅘"), (-(4/5), "-⅘"),
     (5/6, "⅚"), (-(5/6), "-⅚"), (3/8, "⅜"), (-(3/8), "-⅜"),
     (5/8, "⅝"), (-(5/8), "-⅝"), (7/8, "⅞"), (-(7/8), "-⅞")]
  (table.find? (fun p => p.1 = q)).map (·.2)

/-- SI base unit of the same dimension (pint `to_base_units`). -/
def siName : String → String
  | "cm" | "km" | "in" | "m" => "m"
  | "h" | "s" => "s"
  | "g" | "kg" => "kg"
  | x => x

def toBaseUnits (u : UnitV) : UnitV :=
  ucanon (u.foldl (fun acc p => addExp acc (siName p.1) p.2) [])

def expStr (e : ℚ) : String :=
  if e.den = 1 then intStr e.num
  else intStr e.num ++ "/" ++ (⟨Nat.toDigits 10 e.den⟩ : String)

/-- Display string of a unit (model of pint's `"{:~H}"` short
format, with the leading `1 ×` already stripped); the empty product
formats as `dimensionless`. -/
def unitDisplay (u : UnitV) : String :=
  match u with
  | [] => "dimensionless"
  | _ => String.intercalate " "
      (u.map (fun p => if p.2 = 1 then p.1 else p.1 ++ "^" ++ expStr p.2))

/-! The value tree the formatter walks (sympy expressions at the
Numeric Engine's interface), as a mutual inductive so that equality
is decidable (the simplification cache is keyed on these values). -/

mutual

inductive SExpr where
  | int (n : ℤ)             -- sympy.Integer
  | rat (q : ℚ)             -- sympy.Rational that is not an Integer
  | flt (m : ℚ)             -- sympy.Float (value kept exact)
  | sym (s : String)        -- sympy.Symbol
  | imagUnit | czoo | posInf | negInf | nanV   -- the printable atoms
  | qty (mag : SExpr) (u : UnitV)              -- unitbridge.Quantity
  | add (args : SList)      -- sympy.Add
  | mul (args : SList)      -- sympy.Mul
  | pow (b e : SExpr)       -- sympy.Pow
  | mat (cells : SRows)     -- sympy.ImmutableMatrix
  deriving DecidableEq, Repr

inductive SList where
  | nil
  | cons (h : SExpr) (t : SList)
  deriving DecidableEq, Repr

inductive SRows where
  | rnil
  | rcons (h : SList) (t : SRows)
  deriving DecidableEq, Repr

end

def SList.toList : SList → List SExpr
  | .nil => []
  | .cons h t => h :: t.toList

def SRows.toLL : SRows → List (List SExpr)
  | .rnil => []
  | .rcons h t => h.toList :: t.toLL

/-- sympy `== 1` on the printable values (`Float(1.0) == 1` holds). -/
def isOneV : SExpr → Bool
  | .int n => n = 1
  | .rat q => q = 1
  | .flt m => m = 1
  | _ => false

def isMinusOneV : SExpr → Bool
  | .int n => n = -1
  | .rat q => q = -1
  | .flt m => m = -1
  | _ => false

/-- The `Mul` argument filter: `1`/`-1` factors are folded into a
sign prefix. -/
def filterMulArgs (l : List SExpr) : Bool × List SExpr :=
  l.foldl
    (fun acc f =>
      if isMinusOneV f then (!acc.1, acc.2)
      else if isOneV f then acc
      else (acc.1, acc.2 ++ [f]))
    (false, [])

/-- Sign-aware joining of rendered summands (avoiding `1 + -1`). -/
def joinSummands : List String → String
  | [] => ""
  | s :: rest =>
    rest.foldl
      (fun acc t =>
        if startsWithChar '-' t.data then acc ++ " - " ++ (⟨t.data.drop 1⟩ : String)
        else if startsWithChar '+' t.data then acc ++ " + " ++ (⟨t.data.drop 1⟩ : String)
        else acc ++ " + " ++ t)
      s

/-- Left bracket glyph of matrix row `i` (of `rows` rows). -/
def matLB (rows i last : ℕ) : String :=
  if rows = 1 then "[" else if i = 0 then "⎡" else if i = last then "⎣" else "⎢"

def matRB (rows i last : ℕ) : String :=
  if rows = 1 then "]" else if i = 0 then "⎤" else if i = last then "⎦" else "⎥"

/-- The recursive `printer(expr, context)` inside `Result._as_html`,
with explicit fuel (any fuel at least the nesting depth of the value
gives the same result; `printValue` below supplies enough). -/
def printerF (mode : Mode) (ns : NumSys) (digits : ℕ) (um : UnitMode) :
    ℕ → SExpr → Ctx → Except String String
  | 0, _, _ => .error "printer fuel exhausted"
  | fuel + 1, e, ctx =>
    match e with
    | .sym s => .ok ("<i>" ++ s ++ "</i>")
    | .qty mag u =>
      -- unit-display mode: as-is, to base units (magnitude times the
      -- base-unit factor), or the unimplemented `to best`
      let mu : Except String (SExpr × UnitV) :=
        match um with
        | .unone => .ok (mag, u)
        | .toBase =>
          match factorOpt u with
          | some f => .ok (.mul (.cons mag (.cons (.flt f) .nil)), toBaseUnits u)
          | none => .error "fractional-exponent base conversion outside model"
        | .toBest => .error "to best units not implemented :-("
      match mu with
      | .error s => .error s
      | .ok (m, u2) =>
        let us := unitDisplay u2
        if us = "dimensionless" then printerF mode ns digits um fuel m ctx
        else
          let ctxt : Ctx := ⟨ctx.isExponent, .multiplication⟩
          match printerF mode ns digits um fuel m ctxt with
          | .error s => .error s
          | .ok ms =>
            if ctx.surr = Surr.expBase ∨
               (ctx.surr = Surr.expExp ∧ ctx.isExponent > 1) then
              .ok ("(" ++ ms ++ " " ++ us ++ ")")
            else .ok (ms ++ " " ++ us)
    | .flt m =>
      decimalAsHtml ns digits (ctx.isExponent == 0) (ctx.surr == Surr.expBase) m
    | .int n =>
      match integerAsHtml ns digits n with
      | .error s => .error s
      | .ok r =>
        if ctx.surr = Surr.expBase ∧ n < 0 then .ok ("(" ++ r ++ ")") else .ok r
    | .rat q =>
      match mode with
      | .toFloat =>
        decimalAsHtml ns digits (ctx.isExponent == 0) (ctx.surr == Surr.expBase) q
      | .tryExact =>
        match unicodeFraction q with
        | some g => .ok g
        | none =>
          let pmp : String × String × String :=
            if ctx.isExponent > 0 then
              if ctx.surr = Surr.expBase ∨
                 (ctx.surr = Surr.expExp ∧ ctx.isExponent > 1) then
                ("(", "/", ")")
              else ("", "/", "")
            else if ctx.surr = Surr.expBase then
              ("(<sup>", "</sup>&frasl;<sub>", "</sub>)")
            else ("<sup>", "</sup>&frasl;<sub>", "</sub>")
          match integerAsHtml ns digits q.num, integerAsHtml ns digits (q.den : ℤ) with
          | .ok np, .ok dp => .ok (pmp.1 ++ np ++ pmp.2.1 ++ dp ++ pmp.2.2)
          | .error s, _ => .error s
          | _, .error s => .error s
    | .imagUnit => .ok "i"
    | .czoo => .ok "z∞"
    | .posInf => .ok "∞"
    | .negInf => .ok (if ctx.surr = Surr.expBase then "(-∞)" else "-∞")
    | .nanV => .ok "NaN"
    | .add args =>
      let ctxt : Ctx := ⟨ctx.isExponent, .addition⟩
      match args.toList.mapM (fun a => printerF mode ns digits um fuel a ctxt) with
      | .error s => .error s
      | .ok ss =>
        let j := joinSummands ss
        if ctx.surr = Surr.multiplication ∨ ctx.surr = Surr.expBase ∨
           (ctx.surr = Surr.expExp ∧ ctx.isExponent > 1) then
          .ok ("(" ++ j ++ ")")
        else .ok j
    | .mul args =>
      let fa := filterMulArgs args.toList
      if fa.2.isEmpty then
        if fa.1 ∧ ctx.surr = Surr.expBase then .ok "(-1)"
        else .ok (if fa.1 then "-1" else "1")
      else
        let ctxt : Ctx := ⟨ctx.isExponent, .multiplication⟩
        match fa.2.mapM (fun a => printerF mode ns digits um fuel a ctxt) with
        | .error s => .error s
        | .ok ss =>
          let p := String.intercalate " · " ss
          if fa.1 then
            if ctx.surr = Surr.expBase then .ok ("(-" ++ p ++ ")")
            else .ok ("-" ++ p)
          else if ctx.surr = Surr.expBase ∨
                  (ctx.surr = Surr.expExp ∧ ctx.isExponent > 1) then
            .ok ("(" ++ p ++ ")")
          else .ok p
    | .pow b ex =>
      match printerF mode ns digits um fuel b ⟨ctx.isExponent, .expBase⟩,
            printerF mode ns digits um fuel ex ⟨ctx.isExponent + 1, .expExp⟩ with
      | .ok pb, .ok pe =>
        let r := if ctx.isExponent > 0 then pb ++ "^" ++ pe
                 else pb ++ "<sup>" ++ pe ++ "</sup>"
        if ctx.surr = Surr.expBase then .ok ("(" ++ r ++ ")") else .ok r
      | .error s, _ => .error s
      | _, .error s => .error s
    | .mat cells =>
      let rows0 := cells.toLL
      match rows0 with
      | [[x]] => printerF mode ns digits um fuel x ctx   -- 1×1 as scalar
      | _ =>
        let ctxt : Ctx := ⟨ctx.isExponent, Surr.none⟩
        let rows := if rows0.length = 1 then rows0.transpose else rows0
        let last := rows.length - 1
        let renderRow := fun (i : ℕ) (row : List SExpr) =>
          match row.mapM (fun a => printerF mode ns digits um fuel a ctxt) with
          | .error s => Except.error s
          | .ok ss =>
            let rowlast := row.length - 1
            let cellsStr := String.join
              ((List.range ss.length).zip ss |>.map
                (fun (p : ℕ × String) =>
                  (if p.1 < rowlast then "<td style=\"padding-right:15px;\">"
                   else "<td>") ++ p.2 ++ "</td>"))
            Except.ok ("<tr><td>" ++ matLB rows.length i last ++ cellsStr
              ++ "<td>" ++ matRB rows.length i last ++ "</td></tr>")
        match ((List.range rows.length).zip rows).mapM
            (fun (p : ℕ × List SExpr) => renderRow p.1 p.2) with
        | .error s => .error s
        | .ok rs =>
          .ok ("<table border=\"0\" cellspacing=\"0\" style=\"float:right;\">"
            ++ String.join rs ++ "</table>")

/-! Computable nesting depth, used to supply `printerF` fuel. -/

mutual

def sdepth : SExpr → ℕ
  | .qty m _ => sdepth m + 1
  | .add args => sdepthL args + 1
  | .mul args => sdepthL args + 1
  | .pow b e => max (sdepth b) (sdepth e) + 1
  | .mat cells => sdepthR cells + 1
  | _ => 1

def sdepthL : SList → ℕ
  | .nil => 0
  | .cons h t => max (sdepth h) (sdepthL t)

def sdepthR : SRows → ℕ
  | .rnil => 0
  | .rcons h t => max (sdepthL h) (sdepthR t)

end

/-- Enough fuel for `printerF` on `e` (every recursive call goes to a
subterm, except the unit-mode rewrite which adds constant depth). -/
def printValue (mode : Mode) (ns : NumSys) (digits : ℕ) (um : UnitMode)
    (e : SExpr) : Except String String :=
  printerF mode ns digits um (4 * sdepth e + 16) e ⟨0, Surr.none⟩

/-! Top-level `Result._as_html`: dispatch on the shape of the raw
result, with the exact-mode simplification cache
(`Result.__simplified`).  The external engine's `simplify` and
`evalf(digits*10)` are parameters. -/

inductive TopValue where
  | bool (b : Bool)                -- a decided equality
  | sols (x : String) (vals : SList)  -- Solutions
  | uneq (lhs rhs : SExpr)         -- unsolved sympy.Equality
  | exprV (e : SExpr)
  deriving DecidableEq, Repr

def Cache := List (SExpr × SExpr)

def cacheLookup (c : Cache) (k : SExpr) : Option SExpr :=
  match c with
  | [] => none
  | p :: rest => if p.1 = k then some p.2 else cacheLookup rest k

/-- `isinstance(raw_result, (sympy.Rational, sympy.Float))`: values
that need neither `simplify()` nor `evalf()` (sympy `Integer` is a
`Rational`). -/
def isDirect : SExpr → Bool
  | .int _ | .rat _ | .flt _ => true
  | _ => false

/-- One expression through `_as_html`: literals print directly;
otherwise in float mode the value is `evalf`ed, and in exact mode it
is simplified through the cache. -/
def exprHtml (simp evalfE : SExpr → SExpr) (mode : Mode) (ns : NumSys)
    (digits : ℕ) (um : UnitMode) (e : SExpr) (c : Cache) :
    Except String String × Cache :=
  if isDirect e then (printValue mode ns digits um e, c)
  else
    match mode with
    | .toFloat => (printValue mode ns digits um (evalfE e), c)
    | .tryExact =>
      match cacheLookup c e with
      | some r => (printValue mode ns digits um r, c)
      | none => (printValue mode ns digits um (simp e), (e, simp e) :: c)

/-- The solution rows of the `Solutions` table. -/
def solsRows (simp evalfE : SExpr → SExpr) (mode : Mode) (ns : NumSys)
    (digits : ℕ) (um : UnitMode) (x : String) :
    List SExpr → Cache → Except String String × Cache
  | [], c => (.ok "", c)
  | v :: rest, c =>
    let r1 := exprHtml simp evalfE mode ns digits um v c
    let r2 := solsRows simp evalfE mode ns digits um x rest r1.2
    (match r1.1, r2.1 with
     | .ok s1, .ok s2 =>
       .ok ("<tr><td><i>" ++ x ++ "</i> = </td><td>" ++ s1 ++ "</td></tr>" ++ s2)
     | .error s, _ => .error s
     | _, .error s => .error s,
     r2.2)

/-- `Result._as_html` on the raw result. -/
def asHtmlRaw (simp evalfE : SExpr → SExpr) (mode : Mode) (ns : NumSys)
    (digits : ℕ) (um : UnitMode) (v : TopValue) (c : Cache) :
    Except String String × Cache :=
  match v with
  | .bool b => (.ok (if b then "true" else "false"), c)
  | .sols x vals =>
    let r := solsRows simp evalfE mode ns digits um x vals.toList c
    (match r.1 with
     | .ok s => .ok ("<table border=\"0\" style=\"float:right;\">" ++ s ++ "</table>")
     | .error s => .error s,
     r.2)
  | .uneq lhs rhs =>
    let r1 := exprHtml simp evalfE mode ns digits um lhs c
    let r2 := exprHtml simp evalfE mode ns digits um rhs r1.2
    (match r1.1, r2.1 with
     | .ok s1, .ok s2 => .ok (s1 ++ " = " ++ s2)
     | .error s, _ => .error s
     | _, .error s => .error s,
     r2.2)
  | .exprV e => exprHtml simp evalfE mode ns digits um e c

def replMinusChar (c : Char) : Char := if c = '-' then '−' else c

/-- The final `retval.replace("-", "−")` of `Result.as_html`. -/
def minusReplace (s : String) : String := ⟨s.data.map replMinusChar⟩

/-- `Result.as_html`: render, then replace every ASCII hyphen-minus
with the Unicode minus sign. -/
def as_html (simp evalfE : SExpr → SExpr) (mode : Mode) (ns : NumSys)
    (digits : ℕ) (um : UnitMode) (v : TopValue) (c : Cache) :
    Except String String × Cache :=
  let r := asHtmlRaw simp evalfE mode ns digits um v c
  (r.1.map minusReplace, r.2)

/-- Whether a `__pow__` result stayed symbolic (unevaluated). -/
def isSymbolicPow : PowResult → Bool
  | .symbolicPow _ _ => true
  | _ => false

/-! ## Cache lemmas for the exact-mode formatter

`canon` is the value the cache makes the formatter print for a key:
the cached entry if present, the freshly simplified value otherwise.
The rendered string only depends on the canonical value, and a render
pass only ever inserts canonical entries, which together give the
idempotence of `as_html`. -/

def canon (sf : SExpr → SExpr) (c : Cache) (e : SExpr) : SExpr :=
  (cacheLookup c e).getD (sf e)

def CanonEq (sf : SExpr → SExpr) (c₁ c₂ : Cache) : Prop :=
  ∀ e, canon sf c₁ e = canon sf c₂ e

theorem exprHtml_fst_congr (sf ef : SExpr → SExpr) (ns : NumSys) (digits : ℕ)
    (um : UnitMode) (e : SExpr) (c₁ c₂ : Cache)
    (h : canon sf c₁ e = canon sf c₂ e) :
    (exprHtml sf ef .tryExact ns digits um e c₁).1 =
      (exprHtml sf ef .tryExact ns digits um e c₂).1 := by
  unfold exprHtml
  split_ifs with hd
  · rfl
  · simp only
    unfold canon at h
    cases h₁ : cacheLookup c₁ e <;> cases h₂ : cacheLookup c₂ e <;>
      rw [h₁, h₂] at h <;> simp only [Option.getD] at h <;> simp [h]

theorem canon_exprHtml_snd (sf ef : SExpr → SExpr) (ns : NumSys) (digits : ℕ)
    (um : UnitMode) (e' : SExpr) (c : Cache) (e : SExpr) :
    canon sf ((exprHtml sf ef .tryExact ns digits um e' c).2) e = canon sf c e := by
  unfold exprHtml
  split_ifs with hd
  · rfl
  · simp only
    cases h' : cacheLookup c e' with
    | some r => rfl
    | none =>
      simp only
      unfold canon
      simp only [cacheLookup]
      rcases eq_or_ne e' e with he | he
      · subst he
        rw [if_pos rfl, h']
        rfl
      · rw [if_neg he]

theorem canonEq_exprHtml_snd (sf ef : SExpr → SExpr) (ns : NumSys) (digits : ℕ)
    (um : UnitMode) (e' : SExpr) (c : Cache) :
    CanonEq sf ((exprHtml sf ef .tryExact ns digits um e' c).2) c :=
  fun e => canon_exprHtml_snd sf ef ns digits um e' c e

theorem canonEq_trans {sf : SExpr → SExpr} {c₁ c₂ c₃ : Cache}
    (h1 : CanonEq sf c₁ c₂) (h2 : CanonEq sf c₂ c₃) : CanonEq sf c₁ c₃ :=
  fun e => (h1 e).trans (h2 e)

theorem exprHtml_snd_congr (sf ef : SExpr → SExpr) (ns : NumSys) (digits : ℕ)
    (um : UnitMode) (e : SExpr) (c₁ c₂ : Cache) (h : CanonEq sf c₁ c₂) :
    CanonEq sf ((exprHtml sf ef .tryExact ns digits um e c₁).2)
      ((exprHtml sf ef .tryExact ns digits um e c₂).2) := by
  refine canonEq_trans (canonEq_exprHtml_snd sf ef ns digits um e c₁) ?_
  refine canonEq_trans h ?_
  intro e₀
  exact (canon_exprHtml_snd sf ef ns digits um e c₂ e₀).symm

theorem solsRows_congr (sf ef : SExpr → SExpr) (ns : NumSys) (digits : ℕ)
    (um : UnitMode) (x : String) (l : List SExpr) :
    ∀ c₁ c₂ : Cache, CanonEq sf c₁ c₂ →
      (solsRows sf ef .tryExact ns digits um x l c₁).1 =
        (solsRows sf ef .tryExact ns digits um x l c₂).1 ∧
      CanonEq sf (solsRows sf ef .tryExact ns digits um x l c₁).2
        (solsRows sf ef .tryExact ns digits um x l c₂).2 := by
  induction l with
  | nil => intro c₁ c₂ h; exact ⟨rfl, h⟩
  | cons v rest ih =>
    intro c₁ c₂ h
    have h1 := exprHtml_fst_congr sf ef ns digits um v c₁ c₂ (h v)
    have h2 := exprHtml_snd_congr sf ef ns digits um v c₁ c₂ h
    have ih' := ih _ _ h2
    constructor
    · simp only [solsRows]
      rw [h1, ih'.1]
    · simp only [solsRows]
      exact ih'.2

theorem canonEq_solsRows_snd (sf ef : SExpr → SExpr) (ns : NumSys) (digits : ℕ)
    (um : UnitMode) (x : String) (l : List SExpr) :
    ∀ c : Cache, CanonEq sf (solsRows sf ef .tryExact ns digits um x l c).2 c := by
  induction l with
  | nil => intro c e; rfl
  | cons v rest ih =>
    intro c
    simp only [solsRows]
    exact canonEq_trans (ih _) (canonEq_exprHtml_snd sf ef ns digits um v c)

theorem asHtmlRaw_fst_congr (sf ef : SExpr → SExpr) (ns : NumSys) (digits : ℕ)
    (um : UnitMode) (v : TopValue) (c₁ c₂ : Cache) (h : CanonEq sf c₁ c₂) :
    (asHtmlRaw sf ef .tryExact ns digits um v c₁).1 =
      (asHtmlRaw sf ef .tryExact ns digits um v c₂).1 := by
  cases v with
  | bool b => rfl
  | exprV e => exact exprHtml_fst_congr sf ef ns digits um e c₁ c₂ (h e)
  | uneq lhs rhs =>
    simp only [asHtmlRaw]
    rw [exprHtml_fst_congr sf ef ns digits um lhs c₁ c₂ (h lhs),
      exprHtml_fst_congr sf ef ns digits um rhs _ _
        (exprHtml_snd_congr sf ef ns digits um lhs c₁ c₂ h rhs)]
  | sols x vals =>
    simp only [asHtmlRaw]
    rw [(solsRows_congr sf ef ns digits um x vals.toList c₁ c₂ h).1]

theorem canonEq_asHtmlRaw_snd (sf ef : SExpr → SExpr) (ns : NumSys) (digits : ℕ)
    (um : UnitMode) (v : TopValue) (c : Cache) :
    CanonEq sf (asHtmlRaw sf ef .tryExact ns digits um v c).2 c := by
  cases v with
  | bool b => intro e; rfl
  | exprV e => exact canonEq_exprHtml_snd sf ef ns digits um e c
  | uneq lhs rhs =>
    simp only [asHtmlRaw]
    exact canonEq_trans (canonEq_exprHtml_snd sf ef ns digits um rhs _)
      (canonEq_exprHtml_snd sf ef ns digits um lhs c)
  | sols x vals =>
    simp only [asHtmlRaw]
    exact canonEq_solsRows_snd sf ef ns digits um x vals.toList c

theorem replMinus_no_hyphen (l : List Char) : '-' ∉ l.map replMinusChar := by
  intro h
  rcases List.mem_map.mp h with ⟨a, _, ha⟩
  by_cases h0 : a = '-'
  · rw [h0] at ha
    simp [replMinusChar] at ha
  · rw [show replMinusChar a = a from by simp [replMinusChar, h0]] at ha
    exact h0 ha

/-! ## The claims -/

/-- C1: signless (implicit) multiplication binds tighter than explicit
multiplication and division: a signed term directly followed by bare
identifiers is grouped as implicit multiplication at a grammar level
below `*`/`/` (for any number/identifier payloads), `parse "2km/3h"`
yields the tree `((2·km)/(3·h))` — which evaluates to the quantity
`(2/3) km/h` — and not `2·(km/3)·h`. -/
theorem signless_mult_binds_tighter :
    (∀ (n m : ℕ) (u v : String),
      parseTokens [Tok.num n, Tok.ident u, Tok.slash, Tok.num m, Tok.ident v] =
        some (PExpr.divide (PExpr.times (.intLit n) (.const u))
                           (PExpr.times (.intLit m) (.const v)))) ∧
    parse "2km/3h" =
      some (PExpr.divide (PExpr.times (.intLit 2) (.const "km"))
                         (PExpr.times (.intLit 3) (.const "h"))) ∧
    parse "2km/3h" ≠
      some (PExpr.times
        (PExpr.times (.intLit 2) (PExpr.divide (.const "km") (.intLit 3)))
        (.const "h")) ∧
    (parse "2km/3h").map evaluate =
      some (Value.quant ⟨2/3, [("km", 1), ("h", -1)]⟩) := by
  refine ⟨fun n m u v => rfl, rfl, by decide, ?_⟩
  rw [show parse "2km/3h" =
      some (PExpr.divide (PExpr.times (.intLit 2) (.const "km"))
                         (PExpr.times (.intLit 3) (.const "h"))) from rfl]
  simp only [Option.map_some']
  norm_num [evaluate, evalChild, zeroFix, evalOp, vmul, vdiv, constValue,
    isKnownUnit, umul, uinv, ucanon, addExp]
  decide

/-- C1 witness: the universal part of `signless_mult_binds_tighter`
applied at the concrete tokens of `5m/7s`. -/
theorem signless_mult_binds_tighter_witness :
    parseTokens [Tok.num 5, Tok.ident "m", Tok.slash, Tok.num 7, Tok.ident "s"] =
      some (PExpr.divide (PExpr.times (.intLit 5) (.const "m"))
                         (PExpr.times (.intLit 7) (.const "s"))) :=
  signless_mult_binds_tighter.1 5 7 "m" "s"

/-- C2: exponentiation is right-associative and `^`/`**` are
interchangeable: `2^3^4` and `2**3**4` parse to the same tree, whose
evaluation is `2^(3^4)` and not `(2^3)^4`; a chain of leading unary
signs in the exponent is folded into a single signed sub-expression
that becomes the right operand (`2^--3`, `3^-4^-4`). -/
theorem exponent_right_associative :
    parse "2^3^4" =
      some (PExpr.exponent (.intLit 2) (PExpr.exponent (.intLit 3) (.intLit 4))) ∧
    parse "2**3**4" = parse "2^3^4" ∧
    (parse "2^3^4").map evaluate = some (Value.exact ((2 : ℚ) ^ (3 ^ 4 : ℕ))) ∧
    ((2 : ℚ) ^ (3 ^ 4 : ℕ) ≠ ((2 : ℚ) ^ 3) ^ 4) ∧
    parse "2^--3" =
      some (PExpr.exponent (.intLit 2) (.minusSign (.minusSign (.intLit 3)))) ∧
    parse "3^-4^-4" =
      some (PExpr.exponent (.intLit 3)
        (.minusSign (PExpr.exponent (.intLit 4) (.minusSign (.intLit 4))))) := by
  refine ⟨rfl, rfl, ?_, by norm_num, rfl, rfl⟩
  rw [show parse "2^3^4" =
      some (PExpr.exponent (.intLit 2) (PExpr.exponent (.intLit 3) (.intLit 4)))
    from rfl]
  simp only [Option.map_some']
  norm_num [evaluate, evalChild, zeroFix, evalOp, vpow]

/-- C3: unit conversion multiplies the exact unit-to-unit scale
factor from the Unit System into the original magnitude (for every
pair of dimensionally compatible units with defined factors), and
`"1in to cm"` evaluates to the quantity `2.54 cm` exactly. -/
theorem conversion_exact_scale_factor :
    (∀ (q : Quantity) (target : UnitV) (f1 f2 : ℚ),
      factorOpt q.unit = some f1 → factorOpt target = some f2 →
      dimOf q.unit = dimOf target →
      convert_to q target = .ok ⟨(f1 / f2) * q.mag, target⟩) ∧
    (parse "1in").map evaluate = some (Value.quant ⟨1, [("in", 1)]⟩) ∧
    conversionEvaluate (Value.quant ⟨1, [("in", 1)]⟩) [("cm", 1)] =
      .ok ⟨254/100, [("cm", 1)]⟩ := by
  refine ⟨?_, ?_, ?_⟩
  · intro q target f1 f2 h1 h2 hd
    unfold convert_to pintTo
    rw [if_neg (by simp [hd]), h1, h2]
    simp [one_mul]
  · rw [show parse "1in" =
        some (PExpr.times (.intLit 1) (.const "in")) from rfl]
    simp only [Option.map_some']
    norm_num [evaluate, evalChild, zeroFix, evalOp, vmul, constValue, isKnownUnit]
  · simp only [conversionEvaluate]
    norm_num [convert_to, pintTo, factorOpt, dimOf, baseDim, baseFactor,
      Dim.add, Dim.smul, Dim.zero]

/-- C3 witness: the scale-factor law applied at `2 in → cm`
(factor 127/50 = 2.54). -/
theorem conversion_exact_scale_factor_witness :
    convert_to ⟨2, [("in", 1)]⟩ [("cm", 1)] =
      .ok ⟨(127/5000) / (1/100) * 2, [("cm", 1)]⟩ :=
  conversion_exact_scale_factor.1 ⟨2, [("in", 1)]⟩ [("cm", 1)] (127/5000) (1/100)
    (by norm_num [factorOpt, baseFactor])
    (by norm_num [factorOpt, baseFactor])
    (by norm_num [dimOf, baseDim, Dim.add, Dim.smul, Dim.zero])

/-- C4: equality on two quantities whose units are physically
incompatible evaluates to `false` (never an error), `"1cm = 1in"`
evaluates to false, and `"1in = 2.54cm"` evaluates to true. -/
theorem equality_incompatible_units_false :
    (∀ a b : Quantity, dimOf a.unit ≠ dimOf b.unit →
      equalityEvaluate a b = .ok false) ∧
    equalityEvaluate ⟨1, [("cm", 1)]⟩ ⟨1, [("in", 1)]⟩ = .ok false ∧
    equalityEvaluate ⟨1, [("in", 1)]⟩ ⟨254/100, [("cm", 1)]⟩ = .ok true := by
  refine ⟨?_, ?_, ?_⟩
  · intro a b h
    unfold equalityEvaluate qeq
    rw [if_pos h]
  · norm_num [equalityEvaluate, qeq, dimOf, baseDim, factorOpt, baseFactor,
      Dim.add, Dim.smul, Dim.zero]
  · norm_num [equalityEvaluate, qeq, dimOf, baseDim, factorOpt, baseFactor,
      Dim.add, Dim.smul, Dim.zero]

/-- C4 witness: incompatible dimensions (1 cm vs 1 kg) give
`.ok false`, via the universal part of
`equality_incompatible_units_false`. -/
theorem equality_incompatible_units_false_witness :
    equalityEvaluate ⟨1, [("cm", 1)]⟩ ⟨1, [("kg", 1)]⟩ = .ok false :=
  equality_incompatible_units_false.1 ⟨1, [("cm", 1)]⟩ ⟨1, [("kg", 1)]⟩
    (by norm_num [dimOf, baseDim, Dim.add, Dim.smul, Dim.zero])

/-- C5 counterexample: `0` is integral and lies in the claimed signed
range `[−4999, 4999]`, yet `int_to_roman` rejects it (the code's own
range is `±[1;4999]`). -/
theorem roman_zero_fails :
    int_to_roman 0 =
      .error "Roman numerals are only supported on the interval ±[1;4999]!" ∧
    (0 : ℚ).den = 1 :=
  ⟨rfl, rfl⟩

/-- C5 (amended): roman-numeral rendering succeeds exactly for
integral values whose absolute value lies in `[1; 4999]` — the signed
range `[−4999, 4999]` *excluding 0* — and fails with a formatting
error otherwise; rendering `14` gives `"XIV"`, `5000` is an error. -/
theorem roman_range_excludes_zero (q : ℚ) :
    ((int_to_roman q).isOk ↔
      q.den = 1 ∧ 1 ≤ q.num.natAbs ∧ q.num.natAbs ≤ 4999) ∧
    int_to_roman 14 = .ok "XIV" ∧
    int_to_roman 5000 =
      .error "Roman numerals are only supported on the interval ±[1;4999]!" ∧
    int_to_roman (-14) = .ok "-XIV" := by
  refine ⟨?_, rfl, rfl, rfl⟩
  unfold int_to_roman
  rcases eq_or_ne q.den 1 with hd | hd
  · rw [if_neg (by simp [hd])]
    rcases Nat.lt_or_ge q.num.natAbs 1 with hn | hn
    · rw [if_pos (Or.inl hn)]
      simp [Except.isOk, Except.toBool, hd]
      omega
    · rcases Nat.lt_or_ge 4999 q.num.natAbs with hb | hb
      · rw [if_pos (Or.inr hb)]
        simp [Except.isOk, Except.toBool, hd]
        omega
      · rw [if_neg (by omega)]
        simp [Except.isOk, Except.toBool, hd]
        omega
  · rw [if_pos hd]
    simp [Except.isOk, Except.toBool, hd]

/-- C6 counterexample: raising `2 m` to the power `3 s` (a
dimension-bearing quantity exponent) produces a `DimensionalityError`
from `.to(ureg.dimensionless)` — it is *not* kept as an unevaluated
symbolic power, contrary to the claim. -/
theorem pow_unit_exponent_raises :
    qpow ⟨2, [("m", 1)]⟩ (.qty ⟨3, [("s", 1)]⟩) = .dimError ∧
    isSymbolicPow (qpow ⟨2, [("m", 1)]⟩ (.qty ⟨3, [("s", 1)]⟩)) = false := by
  constructor
  · norm_num [qpow, pintTo, dimOf, baseDim, Dim.add, Dim.smul, Dim.zero]
  · norm_num [isSymbolicPow, qpow, pintTo, dimOf, baseDim, Dim.add, Dim.smul,
      Dim.zero]

/-- C6 (amended): a real finite numeric exponent evaluates the power
with the base's unit raised to it; a *non-numeric* (symbolic or
non-real/non-finite) exponent keeps the power unevaluated; a quantity
exponent is unwrapped when its unit is dimensionless, and raises a
`DimensionalityError` (rather than staying symbolic) when it carries
a dimension. -/
theorem pow_exponent_policy :
    (∀ (self : Quantity) (x : ℚ),
      qpow self (.num x) = .evaluated self.mag x (upow self.unit x)) ∧
    (∀ (self : Quantity) (s : String),
      qpow self (.sym s) = .symbolicPow self (.sym s)) ∧
    (∀ self : Quantity, qpow self .nonreal = .symbolicPow self .nonreal) ∧
    (∀ (self q : Quantity) (f : ℚ),
      dimOf q.unit = Dim.zero → factorOpt q.unit = some f →
      qpow self (.qty q) =
        .evaluated self.mag (q.mag * f) (upow self.unit (q.mag * f))) ∧
    (∀ self q : Quantity, dimOf q.unit ≠ Dim.zero →
      qpow self (.qty q) = .dimError) := by
  refine ⟨fun self x => rfl, fun self s => rfl, fun self => rfl, ?_, ?_⟩
  · intro self q f hd hf
    simp only [qpow, pintTo, hf]
    rw [if_neg (by simp [hd, show dimOf ([] : UnitV) = Dim.zero from rfl])]
    norm_num [factorOpt]
  · intro self q hd
    simp only [qpow, pintTo]
    rw [if_pos (by simpa [show dimOf ([] : UnitV) = Dim.zero from rfl] using hd)]

/-- C6 witness: the policy applied at concrete inputs — a plain
numeric exponent, a symbolic exponent, and a dimensionless quantity
exponent. -/
theorem pow_exponent_policy_witness :
    qpow ⟨2, [("m", 1)]⟩ (.num 3) = .evaluated 2 3 (upow [("m", 1)] 3) ∧
    qpow ⟨2, [("m", 1)]⟩ (.sym "x") = .symbolicPow ⟨2, [("m", 1)]⟩ (.sym "x") ∧
    qpow ⟨2, [("m", 1)]⟩ (.qty ⟨3, []⟩) =
      .evaluated 2 (3 * 1) (upow [("m", 1)] (3 * 1)) :=
  ⟨pow_exponent_policy.1 ⟨2, [("m", 1)]⟩ 3,
   pow_exponent_policy.2.1 ⟨2, [("m", 1)]⟩ "x",
   pow_exponent_policy.2.2.2.1 ⟨2, [("m", 1)]⟩ ⟨3, []⟩ 1 rfl rfl⟩

/-- C7: a matrix literal with rows of unequal length raises
`VariableLengthRowsError` at tree construction, and evaluating any
successfully constructed matrix node never yields a rectangularity
error. -/
theorem matrix_rectangular_at_construction :
    (∀ (toks : List (List PExpr)) (r0 : List PExpr) (rest : List (List PExpr)),
      toks = r0 :: rest →
      (∃ r ∈ toks, r.length ≠ r0.length) →
      matrixProcess toks = .error .variableLengthRows) ∧
    (∀ (toks : List (List PExpr)) (m : MatrixNode),
      matrixProcess toks = .ok m →
      matrixEvaluate m ≠ .error .variableLengthRows ∧
      matrixEvaluate m ≠ .error .shapeError) := by
  constructor
  · intro toks r0 rest ht hex
    subst ht
    simp only [matrixProcess]
    rw [if_neg]
    intro hall
    rcases hex with ⟨r, hr, hne⟩
    exact hne (by simpa using List.all_eq_true.mp hall r hr)
  · intro toks m h
    cases toks with
    | nil =>
      simp only [matrixProcess] at h
      cases h
      exact ⟨by simp [matrixEvaluate], by simp [matrixEvaluate]⟩
    | cons r0 rest =>
      simp only [matrixProcess] at h
      by_cases hall : ((r0 :: rest).all fun r => decide (r.length = r0.length)) = true
      · rw [if_pos hall] at h
        cases h
        simp only [matrixEvaluate]
        rw [if_pos (by simpa [isRectangular] using hall)]
        exact ⟨by simp, by simp⟩
      · rw [if_neg hall] at h
        cases h

/-- C7 witness: construction fails on the ragged literal
`[[1]; [2, 3]]` and evaluation of the constructed `[[1, 2]; [3, 4]]`
raises no rectangularity error. -/
theorem matrix_rectangular_at_construction_witness :
    matrixProcess [[.intLit 1], [.intLit 2, .intLit 3]] =
      .error .variableLengthRows ∧
    matrixEvaluate ⟨2, 2, some [[.intLit 1, .intLit 2], [.intLit 3, .intLit 4]]⟩ ≠
      .error .shapeError :=
  ⟨matrix_rectangular_at_construction.1 _ [.intLit 1] [[.intLit 2, .intLit 3]] rfl
    ⟨[.intLit 2, .intLit 3], by simp, by simp⟩,
   (matrix_rectangular_at_construction.2
      [[.intLit 1, .intLit 2], [.intLit 3, .intLit 4]]
      ⟨2, 2, some [[.intLit 1, .intLit 2], [.intLit 3, .intLit 4]]⟩ rfl).2⟩

/-- C9 counterexample: the float-zero → exact-0 replacement of
`Operator._eval` does **not** apply to operands that are themselves
operator nodes: `2.0 - 2.0` evaluates to the float zero and is passed
through unreplaced, so `1/(2.0-2.0)` follows IEEE 754 to `∞` while
`1/0` gives complex infinity `zoo`. -/
theorem float_zero_not_replaced_after_eval :
    evalChild (.minus (.floatLit 2) (.floatLit 2)) = Value.float 0 ∧
    Value.float 0 ≠ Value.exact 0 ∧
    evaluate (.divide (.intLit 1) (.minus (.floatLit 2) (.floatLit 2))) =
      Value.inf ∧
    evaluate (.divide (.intLit 1) (.intLit 0)) = Value.zoo ∧
    Value.inf ≠ Value.zoo := by
  refine ⟨?_, by decide, ?_, ?_, by decide⟩ <;>
    norm_num [evaluate, evalChild, zeroFix, evalOp, vsub, vadd, vneg, vdiv]

/-- C9 (amended): the replacement applies exactly to operands that
are raw float literals in the tree (non-`Operator` arguments of
`_eval`): a literal `0.0` operand becomes the exact integer 0 before
any operator is applied, so dividing by the literal `0.0` behaves
like dividing by exact 0; operands that are operator nodes have their
evaluation result passed through unchanged. -/
theorem float_zero_literals_replaced :
    evalChild (.floatLit 0) = Value.exact 0 ∧
    (∀ q : ℚ, evalChild (.floatLit q) =
      if q = 0 then Value.exact 0 else Value.float q) ∧
    (∀ x : PExpr, evaluate (.divide x (.floatLit 0)) =
      evaluate (.divide x (.intLit 0))) := by
  refine ⟨rfl, fun q => rfl, fun x => rfl⟩

/-- C8: formatting is idempotent in exact mode: rendering the same
value twice with the same configuration (the second call starting
from the simplification cache the first call produced) yields the
same display string. -/
theorem format_exact_idempotent (sf ef : SExpr → SExpr) (ns : NumSys)
    (digits : ℕ) (um : UnitMode) (v : TopValue) (c : Cache) :
    (as_html sf ef .tryExact ns digits um v
        ((as_html sf ef .tryExact ns digits um v c).2)).1 =
      (as_html sf ef .tryExact ns digits um v c).1 := by
  unfold as_html
  simp only
  rw [asHtmlRaw_fst_congr sf ef ns digits um v _ c
    (canonEq_asHtmlRaw_snd sf ef ns digits um v c)]

/-- C10: every string returned by the HTML formatter contains no
ASCII hyphen-minus: the final step replaces every `-` in the markup
(including ones inside HTML tags such as `padding-right`) with the
Unicode minus sign `−`. -/
theorem html_output_has_no_hyphen (sf ef : SExpr → SExpr) (mode : Mode)
    (ns : NumSys) (digits : ℕ) (um : UnitMode) (v : TopValue) (c : Cache)
    (s : String)
    (h : (as_html sf ef mode ns digits um v c).1 = .ok s) :
    '-' ∉ s.data := by
  unfold as_html at h
  simp only at h
  cases hr : (asHtmlRaw sf ef mode ns digits um v c).1 with
  | error e =>
    rw [hr] at h
    exact absurd h (by simp [Except.map])
  | ok s0 =>
    rw [hr] at h
    simp only [Except.map] at h
    have hs : s = minusReplace s0 := by
      cases h
      rfl
    rw [hs]
    exact replMinus_no_hyphen s0.data

/-- C10 witness: the formatter applied to the integer `-42` returns
`"−42"` (Unicode minus), which contains no ASCII hyphen. -/
theorem html_output_has_no_hyphen_witness :
    '-' ∉ ("−42" : String).data :=
  html_output_has_no_hyphen id id .tryExact .decimal 8 .unone
    (.exprV (.int (-42))) [] "−42" (by rfl)

end Pscic
